import Mathlib

/-!
Verification development for the Chia data-layer synchronization server
(`chia/data_layer/data_layer_server.py`) and the clvm serialization-mode
configuration exercised by `tests/wallet/test_signer_protocol.py`.

The server handlers (`handle_tree_root`, `handle_tree_nodes`,
`handle_operations`) and the websocket loop (`websocket_handler`) are
embedded directly from the source.  The `DataStore` methods the server
calls (`get_last_tree_root_by_hash`, `get_left_to_right_ordering`,
`get_operations`), the MerkleStore mutation engine (`insert`, `delete`),
and the clvm serialization configuration are not part of the excerpted
sources; they are modelled from the specification and marked as such in
their doc comments.
-/

namespace DataLayer

/-- Byte strings are modelled as lists of naturals (one per byte). -/
abbrev Bytes := List Nat

/-- Node hashes (the 32-byte outputs of the hashing primitive) are modelled
as naturals produced by an executable pairing-based encoding. -/
abbrev Hash := Nat

/-- Hex digit character for a value below 16 (0-9, a-f), as produced by
Python's `bytes.hex()`. -/
def hexDigit (n : Nat) : Char :=
  if n < 10 then Char.ofNat (48 + n) else Char.ofNat (87 + n)

/-- Two-character lowercase hex rendering of one byte. -/
def byteHex (b : Nat) : String :=
  String.mk [hexDigit (b / 16 % 16), hexDigit (b % 16)]

/-- Lowercase hex rendering of a byte string, as `bytes.hex()` does. -/
def hexEncode (bs : Bytes) : String :=
  String.join (bs.map byteHex)

/-- Hex digit expansion of a natural number, most significant digit first. -/
def natHexAux (n : Nat) : List Char :=
  if _h : n < 16 then [hexDigit n]
  else natHexAux (n / 16) ++ [hexDigit (n % 16)]
  decreasing_by
    exact Nat.div_lt_self (by omega) (by omega)

/-- Serialization of a modelled hash value as a hex string, standing for
`bytes32.hex()` / `str(bytes32)` on the wire. -/
def hashHex (h : Hash) : String :=
  String.mk (natHexAux h)

/-- Cantor pairing, the executable stand-in for combining two values into
one content-addressed digest. -/
def pairEnc (a b : Nat) : Nat :=
  (a + b) * (a + b + 1) / 2 + b

/-- Encoding of a byte string into a natural, used by the modelled hashing
primitive. -/
def bytesEnc (bs : Bytes) : Nat :=
  bs.foldr (fun b acc => pairEnc (b + 1) acc) 0

/-- JSON values, with objects keeping their fields in insertion order as
Python's `json.dumps` does for `dict`s. -/
inductive Json where
  | str (s : String)
  | num (n : Int)
  | bool (b : Bool)
  | null
  | arr (xs : List Json)
  | obj (fields : List (String × Json))

/-- Root status, per the spec a Pending/Committed pair whose `.value` is an
integer (Pending = 1, Committed = 2). -/
inductive Status where
  | pending
  | committed
  deriving DecidableEq

/-- Integer value of a status, as `status.value` in the source. -/
def Status.value : Status → Nat
  | .pending => 1
  | .committed => 2

/-- Side of an insertion relative to its reference node; its `.value` is the
wire string per the spec's wire format (`"left" | "right"`). -/
inductive Side where
  | left
  | right
  deriving DecidableEq

/-- Wire value of a side. -/
def Side.value : Side → String
  | .left => "left"
  | .right => "right"

/-- A Root record: `{tree_id, generation, node_hash, status}`; a `none`
node hash denotes the empty tree. -/
structure Root where
  treeId : Bytes
  generation : Nat
  nodeHash : Option Hash
  status : Status
  deriving DecidableEq

/-- Operation records as served by `get_operations`: `InsertionData`
carries `hash, key, value, reference_node_hash, side, root_status`;
`DeletionData` carries `hash, key, root_status`. -/
inductive Operation where
  | insertion (hash : Hash) (key value : Bytes) (referenceNodeHash : Option Hash)
      (side : Option Side) (rootStatus : Status)
  | deletion (hash : Option Hash) (key : Bytes) (rootStatus : Status)
  deriving DecidableEq

/-- Modelled from the spec: `RootRegistry.get_last_tree_root_by_hash`
(`DataStore` is not among the excerpted sources).  Returns the most recent
(highest-generation) `Root` for `tid` whose `node_hash` equals the argument,
or `none` if no generation ever had that root hash. -/
def get_last_tree_root_by_hash (roots : List Root) (tid : Bytes) (nh : Hash) : Option Root :=
  match roots with
  | [] => none
  | r :: rest =>
    let best := get_last_tree_root_by_hash rest tid nh
    if r.treeId = tid ∧ r.nodeHash = some nh then
      match best with
      | none => some r
      | some b => if r.generation ≤ b.generation then some b else some r
    else best

/-- Response construction of `handle_tree_root`: empty object when the
lookup found nothing or the found root has no node hash, otherwise the
object `{tree_id, generation, node_hash, status}` in that field order. -/
def rootResponse (treeId : Bytes) (tree_root : Option Root) : Json :=
  match tree_root with
  | none => Json.obj []
  | some r =>
    match r.nodeHash with
    | none => Json.obj []
    | some nh =>
      Json.obj [("tree_id", Json.str (hexEncode treeId)),
                ("generation", Json.num (r.generation : Int)),
                ("node_hash", Json.str (hashHex nh)),
                ("status", Json.num (r.status.value : Int))]

/-- Embedding of `DataLayerServer.handle_tree_root` (source lines 51-65):
look up the last tree root by hash and serialize it, or return `{}`. -/
def handle_tree_root (roots : List Root) (treeId : Bytes) (nh : Hash) : Json :=
  rootResponse treeId (get_last_tree_root_by_hash roots treeId nh)

/-- Merkle tree nodes: terminal nodes hold a key/value pair, internal nodes
hold two children (whose hashes are the stored `left_hash`/`right_hash`). -/
inductive MTree where
  | terminal (key value : Bytes)
  | internal (left right : MTree)
  deriving DecidableEq

/-- Content-addressed node hash: `H(key, value)` for terminal nodes and
`H(left_hash, right_hash)` for internal nodes, with the hashing primitive
modelled by the executable pairing encoding. -/
def nodeHash : MTree → Hash
  | .terminal k v => pairEnc 0 (pairEnc (bytesEnc k) (bytesEnc v))
  | .internal l r => pairEnc 1 (pairEnc (nodeHash l) (nodeHash r))

/-- Modelled from the spec: `MerkleStore.left_to_right_traversal` /
`DataStore.get_left_to_right_ordering` (not among the excerpted sources).
Flattens the subtree, visiting each node before its subtrees and the left
subtree fully before the right subtree, terminal nodes included. -/
def get_left_to_right_ordering : MTree → List MTree
  | .terminal k v => [MTree.terminal k v]
  | .internal l r =>
      MTree.internal l r :: (get_left_to_right_ordering l ++ get_left_to_right_ordering r)

/-- Per-node serialization in `handle_tree_nodes`: terminal nodes become
`{key, value, is_terminal: true}` with hex-encoded key and value, internal
nodes become `{left, right, is_terminal: false}` with the child hashes. -/
def serializeNode (node : MTree) : Json :=
  match node with
  | .terminal k v =>
    Json.obj [("key", Json.str (hexEncode k)),
              ("value", Json.str (hexEncode v)),
              ("is_terminal", Json.bool true)]
  | .internal l r =>
    Json.obj [("left", Json.str (hashHex (nodeHash l))),
              ("right", Json.str (hashHex (nodeHash r))),
              ("is_terminal", Json.bool false)]

/-- The server's view of the data store: the root registry, the arena of
content-addressed subtrees, and the per-tree operation log. -/
structure DataStore where
  roots : List Root
  trees : List (Hash × MTree)
  ops : List (Bytes × Operation)
  deriving DecidableEq

/-- Resolution of a node hash in the content-addressed arena. -/
def lookupTree (ds : DataStore) (nh : Hash) : Option MTree :=
  (ds.trees.find? (fun p => p.1 == nh)).map (fun p => p.2)

/-- Response construction of `handle_tree_nodes`: `NotFound` when the node
hash does not resolve, otherwise `{"answer": [...]}` with one entry per
visited node. -/
def nodesResponse (nodes : Option (List MTree)) : Except String Json :=
  match nodes with
  | none => Except.error "NotFound"
  | some ns => Except.ok (Json.obj [("answer", Json.arr (ns.map serializeNode))])

/-- Embedding of `DataLayerServer.handle_tree_nodes` (source lines 67-95):
flatten the subtree at `nh` left-to-right and serialize each node.  An
unresolvable hash surfaces as a `NotFound` failure (spec section 7). -/
def handle_tree_nodes (ds : DataStore) (_treeId : Bytes) (nh : Hash) : Except String Json :=
  nodesResponse ((lookupTree ds nh).map get_left_to_right_ordering)

/-- Modelled from the spec: `OperationLog.get_operations` (not among the
excerpted sources).  Returns the ordered operations covering generations
`(generation, maxGeneration]` for the tree, or `InvalidRange` when
`generation > maxGeneration` or the range exceeds the known generations. -/
def get_operations (ds : DataStore) (treeId : Bytes) (generation maxGeneration : Nat) :
    Except String (List Operation) :=
  let treeOps := (ds.ops.filter (fun p => p.1 == treeId)).map (fun p => p.2)
  if generation > maxGeneration ∨ maxGeneration > treeOps.length then
    Except.error "InvalidRange"
  else
    Except.ok ((treeOps.take maxGeneration).drop generation)

/-- Per-operation serialization in `handle_operations`: insertions are
tagged `is_insert: true` with `hash`, `key`, `value`,
`reference_node_hash`, `side`, `root_status`; deletions are tagged
`is_insert: false` with `hash`, `key`, `root_status`.  Absent optional
fields serialize as the literal string `"None"`. -/
def serializeOperation (operation : Operation) : Json :=
  match operation with
  | .insertion hash key value referenceNodeHash side rootStatus =>
    let reference_node_hash :=
      match referenceNodeHash with
      | none => "None"
      | some h => hashHex h
    let sideValue :=
      match side with
      | none => "None"
      | some s => s.value
    Json.obj [("is_insert", Json.bool true),
              ("hash", Json.str (hashHex hash)),
              ("key", Json.str (hexEncode key)),
              ("value", Json.str (hexEncode value)),
              ("reference_node_hash", Json.str reference_node_hash),
              ("side", Json.str sideValue),
              ("root_status", Json.num (rootStatus.value : Int))]
  | .deletion hash key rootStatus =>
    Json.obj [("is_insert", Json.bool false),
              ("hash", Json.str (match hash with | none => "None" | some h => hashHex h)),
              ("key", Json.str (hexEncode key)),
              ("root_status", Json.num (rootStatus.value : Int))]

/-- Response construction of `handle_operations`: serialize the operation
list as a JSON array, propagating a range failure. -/
def operationsResponse (r : Except String (List Operation)) : Except String Json :=
  match r with
  | Except.error e => Except.error e
  | Except.ok operations_data => Except.ok (Json.arr (operations_data.map serializeOperation))

/-- Embedding of `DataLayerServer.handle_operations` (source lines 97-131):
fetch the operations for the requested generation range and serialize
them in order. -/
def handle_operations (ds : DataStore) (treeId : Bytes) (generation maxGeneration : Nat) :
    Except String Json :=
  operationsResponse (get_operations ds treeId generation maxGeneration)

/-- The three request payloads the websocket loop dispatches on, already
parsed and hex-decoded.  Payloads that fail JSON parsing, lack a field, or
carry bad hex are represented by `Frame.malformed` below. -/
inductive Request where
  | requestRoot (treeId : Bytes) (nodeHash : Hash)
  | requestNodes (treeId : Bytes) (nodeHash : Hash)
  | requestOperations (treeId : Bytes) (generation maxGeneration : Nat)
  deriving DecidableEq

/-- Inbound websocket frames: a well-formed request, a `close` request, a
well-formed JSON text frame whose `type` is none of the four recognized
values, a malformed text frame (invalid JSON, missing field or bad hex),
or a non-text frame, which the loop skips. -/
inductive Frame where
  | request (r : Request)
  | close
  | unknownType
  | malformed
  | nonText
  deriving DecidableEq

/-- Dispatch of one request to its handler, as in the `elif` chain of
`websocket_handler`.  A handler exception (`NotFound`, `InvalidRange`)
surfaces as an error. -/
def respond (ds : DataStore) : Request → Except String Json
  | .requestRoot tid nh => Except.ok (handle_tree_root ds.roots tid nh)
  | .requestNodes tid nh => handle_tree_nodes ds tid nh
  | .requestOperations tid g m => handle_operations ds tid g m

/-- Whether dispatching a request succeeds. -/
def respondsOk (ds : DataStore) (r : Request) : Bool :=
  match respond ds r with
  | Except.ok _ => true
  | Except.error _ => false

/-- Observable connection events: a frame being read, a response frame
being sent, the server closing the connection (`close` request), or the
connection terminating abruptly on an uncaught exception. -/
inductive ConnEvent where
  | readFrame (f : Frame)
  | sendFrame (j : Json)
  | closedConn
  | crashed

/-- Embedding of `DataLayerServer.websocket_handler` (source lines
133-151): read frames sequentially; on `close` close the connection and
return; on a recognized request dispatch and send the response; on an
unrecognized type fall through to `ws.send_str(json_response)`, which
re-sends the still-bound previous response or raises when `json_response`
was never bound; on a malformed payload the raised exception terminates
the connection.  The `Option Json` argument is the loop-local
`json_response` variable, unbound at connection start. -/
def websocket_handler (ds : DataStore) : Option Json → List Frame → List ConnEvent
  | _, [] => []
  | json_response, f :: rest =>
    ConnEvent.readFrame f ::
    match f with
    | .nonText => websocket_handler ds json_response rest
    | .close => [ConnEvent.closedConn]
    | .malformed => [ConnEvent.crashed]
    | .request r =>
      match respond ds r with
      | Except.ok j => ConnEvent.sendFrame j :: websocket_handler ds (some j) rest
      | Except.error _ => [ConnEvent.crashed]
    | .unknownType =>
      match json_response with
      | none => [ConnEvent.crashed]
      | some j => ConnEvent.sendFrame j :: websocket_handler ds (some j) rest

/-- Modelled from the spec: `get_last_tree_root_by_hash` as a data-store
call that returns its result and the (unchanged) store state — SyncServer
handlers only read from the store. -/
def get_last_tree_root_by_hash_st (ds : DataStore) (tid : Bytes) (nh : Hash) :
    Option Root × DataStore :=
  (get_last_tree_root_by_hash ds.roots tid nh, ds)

/-- Modelled from the spec: `get_left_to_right_ordering` as a data-store
call that returns its result and the (unchanged) store state. -/
def get_left_to_right_ordering_st (ds : DataStore) (nh : Hash) :
    Option (List MTree) × DataStore :=
  ((lookupTree ds nh).map get_left_to_right_ordering, ds)

/-- Modelled from the spec: `get_operations` as a data-store call that
returns its result and the (unchanged) store state. -/
def get_operations_st (ds : DataStore) (tid : Bytes) (g m : Nat) :
    Except String (List Operation) × DataStore :=
  (get_operations ds tid g m, ds)

/-- State-threaded dispatch: each handler performs its data-store calls and
returns the store state it leaves behind along with its response. -/
def respond_st (ds : DataStore) : Request → Except String Json × DataStore
  | .requestRoot tid nh =>
    let p := get_last_tree_root_by_hash_st ds tid nh
    (Except.ok (rootResponse tid p.1), p.2)
  | .requestNodes _tid nh =>
    let p := get_left_to_right_ordering_st ds nh
    (nodesResponse p.1, p.2)
  | .requestOperations tid g m =>
    let p := get_operations_st ds tid g m
    (operationsResponse p.1, p.2)

/-- State-threaded websocket loop: like `websocket_handler` but threading
the data-store state through every handler call, so that preservation of
the stored state is a statement about the loop rather than an assumption. -/
def websocket_handler_st : DataStore → Option Json → List Frame → List ConnEvent × DataStore
  | ds, _, [] => ([], ds)
  | ds, json_response, f :: rest =>
    match f with
    | .nonText =>
      let p := websocket_handler_st ds json_response rest
      (ConnEvent.readFrame f :: p.1, p.2)
    | .close => ([ConnEvent.readFrame f, ConnEvent.closedConn], ds)
    | .malformed => ([ConnEvent.readFrame f, ConnEvent.crashed], ds)
    | .request r =>
      let q := respond_st ds r
      match q.1 with
      | Except.ok j =>
        let p := websocket_handler_st q.2 (some j) rest
        (ConnEvent.readFrame f :: ConnEvent.sendFrame j :: p.1, p.2)
      | Except.error _ => ([ConnEvent.readFrame f, ConnEvent.crashed], q.2)
    | .unknownType =>
      match json_response with
      | none => ([ConnEvent.readFrame f, ConnEvent.crashed], ds)
      | some j =>
        let p := websocket_handler_st ds (some j) rest
        (ConnEvent.readFrame f :: ConnEvent.sendFrame j :: p.1, p.2)

/-- Response of a successful dispatch, with the empty object as the (never
used) fallback for a failed one. -/
def okD (e : Except String Json) : Json :=
  match e with
  | Except.ok j => j
  | Except.error _ => Json.obj []

/-- The trace produced by a run of answered requests: for each request, a
read event immediately followed by the send event of its response. -/
def requestTrace (ds : DataStore) (reqs : List Request) : List ConnEvent :=
  (reqs.map (fun r => [ConnEvent.readFrame (Frame.request r),
                       ConnEvent.sendFrame (okD (respond ds r))])).flatten

/-- Value of the loop-local `json_response` variable after a run of
answered requests. -/
def lastState (ds : DataStore) (st : Option Json) (reqs : List Request) : Option Json :=
  reqs.foldl (fun _ r => some (okD (respond ds r))) st

/-- The response to the last request of a (nonempty) run. -/
def lastResponse (ds : DataStore) (reqs : List Request) : Json :=
  reqs.foldl (fun _ r => okD (respond ds r)) (Json.obj [])

/-- Whether a key occurs in a terminal node of the tree. -/
def keyIn : MTree → Bytes → Bool
  | .terminal k _, key => k == key
  | .internal l r, key => keyIn l key || keyIn r key

/-- Pairing of a freshly built terminal node with the referenced node,
ordered by the requested side of the new node. -/
def attachSide (s : Side) (newNode refNode : MTree) : MTree :=
  match s with
  | .left => MTree.internal newNode refNode
  | .right => MTree.internal refNode newNode

/-- Replacement of the (leftmost) subtree whose hash is `ref` by an
internal node pairing it with the new terminal leaf; ancestor hashes are
rewritten implicitly because hashes are recomputed from the structure.
Returns `none` when `ref` resolves nowhere in the tree. -/
def insertAt : MTree → Hash → Bytes → Bytes → Side → Option MTree
  | MTree.terminal k v, ref, key, value, s =>
    if nodeHash (MTree.terminal k v) == ref then
      some (attachSide s (MTree.terminal key value) (MTree.terminal k v))
    else none
  | MTree.internal l r, ref, key, value, s =>
    if nodeHash (MTree.internal l r) == ref then
      some (attachSide s (MTree.terminal key value) (MTree.internal l r))
    else
      match insertAt l ref key value s with
      | some l2 => some (MTree.internal l2 r)
      | none =>
        match insertAt r ref key value s with
        | some r2 => some (MTree.internal l r2)
        | none => none

/-- Modelled from the spec: `MerkleStore.insert` (the engine is not among
the excerpted sources).  Fails with `DuplicateKey` if the key already
exists and with `NotFound` if the reference hash does not resolve; an
absent reference means insertion into an empty tree. -/
def insertTree (curr : Option MTree) (key value : Bytes) (ref : Option Hash)
    (side : Option Side) : Except String MTree :=
  match curr, ref, side with
  | none, none, _ => Except.ok (MTree.terminal key value)
  | some t, some rh, some s =>
    if keyIn t key then Except.error "DuplicateKey"
    else
      match insertAt t rh key value s with
      | some t2 => Except.ok t2
      | none => Except.error "NotFound"
  | _, _, _ => Except.error "NotFound"

/-- Removal of the terminal node holding `key`: the parent collapses by
promoting the sibling subtree in its place.  The outer `none` means the
key is absent; `some none` means removal emptied the (sub)tree. -/
def deleteAt : MTree → Bytes → Option (Option MTree)
  | .terminal k _, key => if k == key then some none else none
  | .internal l r, key =>
    match deleteAt l key with
    | some none => some (some r)
    | some (some l2) => some (some (MTree.internal l2 r))
    | none =>
      match deleteAt r key with
      | some none => some (some l)
      | some (some r2) => some (some (MTree.internal l r2))
      | none => none

/-- Modelled from the spec: `MerkleStore.delete` (the engine is not among
the excerpted sources).  Fails with `NotFound` if the key is absent. -/
def deleteTree (curr : Option MTree) (key : Bytes) : Except String (Option MTree) :=
  match curr with
  | none => Except.error "NotFound"
  | some t =>
    match deleteAt t key with
    | none => Except.error "NotFound"
    | some res => Except.ok res

/-- History of one tree: the current tree, the root hash recorded for each
generation (index = generation, `none` = empty tree), and the operation
log, one entry per generation transition. -/
structure TreeHistory where
  currTree : Option MTree
  roots : List (Option Hash)
  ops : List Operation
  deriving DecidableEq

/-- State established by `create_tree`: generation 0 with an empty root
and an empty operation log. -/
def emptyHistory : TreeHistory := ⟨none, [none], []⟩

/-- Write commands accepted by the engine. -/
inductive WriteCmd where
  | ins (key value : Bytes) (ref : Option Hash) (side : Option Side)
  | del (key : Bytes)
  deriving DecidableEq

/-- Modelled from the spec: one atomic write — on success the engine
persists the new nodes, appends a new `Root` and appends the `Operation`
recording the diff, all together. -/
def applyWrite (st : TreeHistory) : WriteCmd → Except String TreeHistory
  | .ins key value ref side =>
    match insertTree st.currTree key value ref side with
    | Except.error e => Except.error e
    | Except.ok t =>
      Except.ok ⟨some t, st.roots ++ [some (nodeHash t)],
                 st.ops ++ [Operation.insertion (nodeHash t) key value ref side Status.pending]⟩
  | .del key =>
    match deleteTree st.currTree key with
    | Except.error e => Except.error e
    | Except.ok res =>
      Except.ok ⟨res, st.roots ++ [res.map nodeHash],
                 st.ops ++ [Operation.deletion (res.map nodeHash) key Status.pending]⟩

/-- Sequential application of write commands from a given history. -/
def runWritesFrom (st : TreeHistory) : List WriteCmd → Except String TreeHistory
  | [] => Except.ok st
  | c :: rest =>
    match applyWrite st c with
    | Except.error e => Except.error e
    | Except.ok st2 => runWritesFrom st2 rest

/-- Sequential application of write commands against a freshly created
tree. -/
def runWrites (cmds : List WriteCmd) : Except String TreeHistory :=
  runWritesFrom emptyHistory cmds

/-- Replay of one logged operation through the engine's `insert`/`delete`:
an insertion record replays the insert with its recorded key, value,
reference and side; a deletion record replays the delete with its key. -/
def replayOperation (curr : Option MTree) : Operation → Except String (Option MTree)
  | .insertion _ key value ref side _ =>
    match insertTree curr key value ref side with
    | Except.error e => Except.error e
    | Except.ok t => Except.ok (some t)
  | .deletion _ key _ => deleteTree curr key

/-- Replay of a sequence of logged operations. -/
def replay (curr : Option MTree) : List Operation → Except String (Option MTree)
  | [] => Except.ok curr
  | op :: rest =>
    match replayOperation curr op with
    | Except.error e => Except.error e
    | Except.ok c2 => replay c2 rest

/-- The clvm serialization configuration: a wrapper around the flag, with
`use` defaulting to `false` as in `ClvmSerializationConfig()`. -/
structure ClvmSerializationConfig where
  use : Bool := false
  deriving DecidableEq

/-- Modelled from the spec: the serialization-mode storage is task-local —
one stack of configurations per thread/task, never a process-wide
singleton. -/
abbrev ConfigState := Nat → List ClvmSerializationConfig

/-- Scope events: a thread entering a `clvm_serialization_mode(use)` scope
or exiting its innermost scope. -/
inductive CtxEvent where
  | enter (thread : Nat) (use : Bool)
  | exitScope (thread : Nat)
  deriving DecidableEq

/-- The thread performing an event. -/
def CtxEvent.thread : CtxEvent → Nat
  | .enter t _ => t
  | .exitScope t => t

/-- Modelled from the spec: entering a scope pushes the requested
configuration onto the calling thread's own stack; exiting pops it,
restoring the prior value (RAII-style guard). -/
def configStep (s : ConfigState) : CtxEvent → ConfigState
  | .enter t u => fun t2 => if t2 = t then ClvmSerializationConfig.mk u :: s t2 else s t2
  | .exitScope t => fun t2 => if t2 = t then (s t2).tail else s t2

/-- Modelled from the spec: `_ClvmSerializationMode.get_config` reads the
top of the calling thread's stack, falling back to the default
configuration outside every scope. -/
def get_config (s : ConfigState) (t : Nat) : ClvmSerializationConfig :=
  (s t).headD {}

/-- The spec's description of one serialized Operation record, written from
the spec sentence: insert/delete tagged via `is_insert`; insertion records
carry `hash`, `key`, `value`, `reference_node_hash`, `side`, `root_status`;
deletion records carry `hash`, `key`, `root_status`; hash- and byte-valued
fields as hex strings and every absent optional field as the literal string
`"None"`. -/
def specOperationJson : Operation → Json
  | .insertion hash key value referenceNodeHash side rootStatus =>
    Json.obj [("is_insert", Json.bool true),
              ("hash", Json.str (hashHex hash)),
              ("key", Json.str (hexEncode key)),
              ("value", Json.str (hexEncode value)),
              ("reference_node_hash",
                Json.str (match referenceNodeHash with | none => "None" | some h => hashHex h)),
              ("side", Json.str (match side with | none => "None" | some s => s.value)),
              ("root_status", Json.num (rootStatus.value : Int))]
  | .deletion hash key rootStatus =>
    Json.obj [("is_insert", Json.bool false),
              ("hash", Json.str (match hash with | none => "None" | some h => hashHex h)),
              ("key", Json.str (hexEncode key)),
              ("root_status", Json.num (rootStatus.value : Int))]

/-- The spec's description of one serialized node entry, written from the
spec sentence: terminal nodes as `{key, value, is_terminal: true}` with key
and value hex-encoded, internal nodes as `{left, right, is_terminal:
false}`. -/
def specNodeJson : MTree → Json
  | .terminal k v =>
    Json.obj [("key", Json.str (hexEncode k)),
              ("value", Json.str (hexEncode v)),
              ("is_terminal", Json.bool true)]
  | .internal l r =>
    Json.obj [("left", Json.str (hashHex (nodeHash l))),
              ("right", Json.str (hashHex (nodeHash r))),
              ("is_terminal", Json.bool false)]

/-- Demo root registry: tree `[7]` has an empty generation 0 and a
generation 1 whose root hash is `99`. -/
def demoRoots : List Root :=
  [⟨[7], 0, none, Status.pending⟩, ⟨[7], 1, some 99, Status.committed⟩]

/-- Demo subtree with one internal and two terminal nodes. -/
def demoTree : MTree :=
  MTree.internal (MTree.terminal [] [0]) (MTree.terminal [] [])

/-- Demo logged operation. -/
def demoOperation : Operation :=
  Operation.insertion 151 [] [0] none none Status.pending

/-- Demo data store: the demo registry, the demo subtree registered under
hash `5`, and one logged operation for tree `[7]`. -/
def demoStore : DataStore :=
  ⟨demoRoots, [(5, demoTree)], [([7], demoOperation)]⟩

/-- The lookup in `get_last_tree_root_by_hash` only ever returns a root of
the requested tree whose stored node hash is exactly the requested hash. -/
theorem get_last_tree_root_by_hash_found (roots : List Root) (tid : Bytes) (nh : Hash)
    (r : Root) (h : get_last_tree_root_by_hash roots tid nh = some r) :
    r.treeId = tid ∧ r.nodeHash = some nh := by
  induction roots with
  | nil => simp [get_last_tree_root_by_hash] at h
  | cons a rest ih =>
    rw [get_last_tree_root_by_hash] at h
    by_cases hc : a.treeId = tid ∧ a.nodeHash = some nh
    · rw [if_pos hc] at h
      cases hb : get_last_tree_root_by_hash rest tid nh with
      | none => rw [hb] at h; cases h; exact hc
      | some b =>
        rw [hb] at h
        dsimp only at h
        by_cases hg : a.generation ≤ b.generation
        · rw [if_pos hg] at h; cases h; exact ih hb
        · rw [if_neg hg] at h; cases h; exact hc
    · rw [if_neg hc] at h; exact ih h

/-- When no root of the tree ever had the requested hash, the lookup
returns `none`. -/
theorem get_last_tree_root_by_hash_none (roots : List Root) (tid : Bytes) (nh : Hash)
    (h : ∀ r ∈ roots, r.treeId = tid → r.nodeHash ≠ some nh) :
    get_last_tree_root_by_hash roots tid nh = none := by
  induction roots with
  | nil => rfl
  | cons a rest ih =>
    rw [get_last_tree_root_by_hash]
    have hc : ¬(a.treeId = tid ∧ a.nodeHash = some nh) := by
      intro hand
      exact h a (List.mem_cons_self a rest) hand.1 hand.2
    rw [if_neg hc]
    exact ih (fun r hr => h r (List.mem_cons_of_mem a hr))

/-- C1: a `request_root` request is answered with the JSON object holding
the `tree_id`, `generation`, `node_hash` and `status` of the root found by
`get_last_tree_root_by_hash`, and with the literal empty object `{}` when
the lookup finds nothing — in particular for a node hash never assigned as
any generation's root of the tree. -/
theorem request_root_response (roots : List Root) (tid : Bytes) (nh : Hash) :
    (∀ r : Root, get_last_tree_root_by_hash roots tid nh = some r →
      handle_tree_root roots tid nh =
        Json.obj [("tree_id", Json.str (hexEncode tid)),
                  ("generation", Json.num (r.generation : Int)),
                  ("node_hash", Json.str (hashHex nh)),
                  ("status", Json.num (r.status.value : Int))])
    ∧ (get_last_tree_root_by_hash roots tid nh = none →
        handle_tree_root roots tid nh = Json.obj [])
    ∧ ((∀ r ∈ roots, r.treeId = tid → r.nodeHash ≠ some nh) →
        handle_tree_root roots tid nh = Json.obj []) := by
  refine ⟨?_, ?_, ?_⟩
  · intro r hr
    have hprops := get_last_tree_root_by_hash_found roots tid nh r hr
    unfold handle_tree_root rootResponse
    rw [hr]
    dsimp only
    rw [hprops.2]
  · intro h0
    unfold handle_tree_root rootResponse
    rw [h0]
  · intro hnone
    have h0 := get_last_tree_root_by_hash_none roots tid nh hnone
    unfold handle_tree_root rootResponse
    rw [h0]

/-- Witness for C1 on the demo registry: hash `99` is found at generation
1 and serialized, hash `55` was never any generation's root and yields
`{}`. -/
theorem request_root_response_witness :
    handle_tree_root demoRoots [7] 99 =
      Json.obj [("tree_id", Json.str (hexEncode [7])),
                ("generation", Json.num 1),
                ("node_hash", Json.str (hashHex 99)),
                ("status", Json.num 2)]
    ∧ handle_tree_root demoRoots [7] 55 = Json.obj [] := by
  constructor
  · exact (request_root_response demoRoots [7] 99).1
      ⟨[7], 1, some 99, Status.committed⟩ (by decide)
  · exact (request_root_response demoRoots [7] 55).2.2 (by decide)

/-- The source's per-operation serialization agrees with the spec's
description of the record. -/
theorem serializeOperation_eq_spec : serializeOperation = specOperationJson := by
  funext op
  cases op <;> rfl

/-- C5: a `request_operations` request answered from the operation list
returned by `get_operations` serializes exactly that ordered list, each
record tagged and fielded as the spec describes, with absent optional
fields as the literal string `"None"`. -/
theorem request_operations_response (ds : DataStore) (tid : Bytes) (g m : Nat)
    (ops : List Operation) (h : get_operations ds tid g m = Except.ok ops) :
    handle_operations ds tid g m = Except.ok (Json.arr (ops.map specOperationJson)) := by
  unfold handle_operations operationsResponse
  rw [h, serializeOperation_eq_spec]

/-- Witness for C5 on the demo store. -/
theorem request_operations_response_witness :
    get_operations demoStore [7] 0 1 = Except.ok [demoOperation]
    ∧ handle_operations demoStore [7] 0 1 =
        Except.ok (Json.arr ([demoOperation].map specOperationJson)) :=
  ⟨rfl, request_operations_response demoStore [7] 0 1 [demoOperation] rfl⟩

/-- The source's per-node serialization agrees with the spec's description
of the entry. -/
theorem serializeNode_eq_spec : serializeNode = specNodeJson := by
  funext n
  cases n <;> rfl

/-- C6: a `request_nodes` request whose node hash resolves is answered with
an `answer` field holding the flattened left-to-right ordering of the
subtree, each entry tagged terminal or internal as the spec describes. -/
theorem request_nodes_response (ds : DataStore) (tid : Bytes) (nh : Hash) (t : MTree)
    (h : lookupTree ds nh = some t) :
    handle_tree_nodes ds tid nh =
      Except.ok (Json.obj
        [("answer", Json.arr ((get_left_to_right_ordering t).map specNodeJson))]) := by
  unfold handle_tree_nodes nodesResponse
  rw [h, serializeNode_eq_spec]
  rfl

/-- Witness for C6 on the demo store. -/
theorem request_nodes_response_witness :
    lookupTree demoStore 5 = some demoTree
    ∧ handle_tree_nodes demoStore [7] 5 =
        Except.ok (Json.obj
          [("answer", Json.arr ((get_left_to_right_ordering demoTree).map specNodeJson))]) :=
  ⟨rfl, request_nodes_response demoStore [7] 5 demoTree rfl⟩

/-- A dispatch reported successful yields some response value. -/
theorem respondsOk_ok (ds : DataStore) (r : Request) (h : respondsOk ds r = true) :
    ∃ j : Json, respond ds r = Except.ok j := by
  unfold respondsOk at h
  cases hr : respond ds r with
  | ok j => exact ⟨j, rfl⟩
  | error e => rw [hr] at h; cases h

/-- Processing a run of answered request frames produces the read/send
trace of the run and continues with the response to the last request bound
in `json_response`. -/
theorem websocket_handler_requests (ds : DataStore) (reqs : List Request)
    (rest : List Frame) (h : ∀ r ∈ reqs, respondsOk ds r = true) (st : Option Json) :
    websocket_handler ds st (reqs.map Frame.request ++ rest) =
      requestTrace ds reqs ++ websocket_handler ds (lastState ds st reqs) rest := by
  induction reqs generalizing st with
  | nil => simp [requestTrace, lastState]
  | cons r rs ih =>
    obtain ⟨j, hj⟩ := respondsOk_ok ds r (h r (List.mem_cons_self r rs))
    have hrest : ∀ x ∈ rs, respondsOk ds x = true :=
      fun x hx => h x (List.mem_cons_of_mem r hx)
    simp only [List.map_cons, List.cons_append, websocket_handler]
    rw [hj]
    dsimp only
    simp only [List.append_eq]
    rw [ih hrest (some j)]
    simp [requestTrace, lastState, hj, okD]

/-- C2: on one connection, a sequence of answered request frames is
processed in lockstep — the trace is exactly, for each request in order, a
read event followed by the send event of that request's response: one
response per request, emitted before the next request is read, in request
order. -/
theorem one_response_per_request (ds : DataStore) (reqs : List Request)
    (h : ∀ r ∈ reqs, respondsOk ds r = true) :
    websocket_handler ds none (reqs.map Frame.request) =
      (reqs.map (fun r => [ConnEvent.readFrame (Frame.request r),
                           ConnEvent.sendFrame (okD (respond ds r))])).flatten := by
  have hnil : websocket_handler ds (lastState ds none reqs) [] = [] := rfl
  have hrun := websocket_handler_requests ds reqs [] h none
  rw [hnil, List.append_nil] at hrun
  simpa [requestTrace] using hrun

/-- Demo request list for the connection-loop witnesses. -/
def demoReqs : List Request :=
  [Request.requestRoot [7] 99, Request.requestNodes [7] 5]

/-- Witness for C2 on the demo store with two answered requests. -/
theorem one_response_per_request_witness :
    (∀ r ∈ demoReqs, respondsOk demoStore r = true)
    ∧ websocket_handler demoStore none (demoReqs.map Frame.request) =
        (demoReqs.map (fun r => [ConnEvent.readFrame (Frame.request r),
                                 ConnEvent.sendFrame (okD (respond demoStore r))])).flatten :=
  ⟨by decide, one_response_per_request demoStore demoReqs (by decide)⟩

/-- The `json_response` variable after a nonempty run of answered requests
holds the last response. -/
theorem lastState_some (ds : DataStore) (st : Option Json) (r : Request) (rs : List Request) :
    lastState ds st (r :: rs) = some (lastResponse ds (r :: rs)) := by
  have aux : ∀ (l : List Request) (a : Json),
      l.foldl (fun _ x => some (okD (respond ds x))) (some a) =
        some (l.foldl (fun _ x => okD (respond ds x)) a) := by
    intro l
    induction l with
    | nil => intro a; rfl
    | cons x xs ih =>
      intro a
      simp only [List.foldl_cons]
      exact ih (okD (respond ds x))
  unfold lastState lastResponse
  simp only [List.foldl_cons]
  exact aux rs (okD (respond ds r))

/-- C4: once at least one request on the connection has been answered, a
later well-formed text frame with an unrecognized type makes the server
send the previous request's response frame again — the loop-local
`json_response` still holds it — and the connection continues instead of
closing. -/
theorem unknown_type_resends_previous (ds : DataStore) (reqs : List Request)
    (rest : List Frame) (hne : reqs ≠ [])
    (h : ∀ r ∈ reqs, respondsOk ds r = true) :
    websocket_handler ds none (reqs.map Frame.request ++ (Frame.unknownType :: rest)) =
      requestTrace ds reqs ++
        (ConnEvent.readFrame Frame.unknownType ::
         ConnEvent.sendFrame (lastResponse ds reqs) ::
         websocket_handler ds (some (lastResponse ds reqs)) rest) := by
  obtain ⟨r, rs, rfl⟩ := List.exists_cons_of_ne_nil hne
  rw [websocket_handler_requests ds (r :: rs) (Frame.unknownType :: rest) h none]
  rw [lastState_some ds none r rs]
  rfl

/-- Witness for C4: after one answered request, an unknown-type frame gets
the previous response re-sent. -/
theorem unknown_type_resends_previous_witness :
    ([Request.requestRoot [7] 99] ≠ ([] : List Request))
    ∧ websocket_handler demoStore none
        ([Request.requestRoot [7] 99].map Frame.request ++ (Frame.unknownType :: [])) =
      requestTrace demoStore [Request.requestRoot [7] 99] ++
        (ConnEvent.readFrame Frame.unknownType ::
         ConnEvent.sendFrame (lastResponse demoStore [Request.requestRoot [7] 99]) ::
         websocket_handler demoStore
           (some (lastResponse demoStore [Request.requestRoot [7] 99])) []) :=
  ⟨by decide,
   unknown_type_resends_previous demoStore [Request.requestRoot [7] 99] [] (by decide) (by decide)⟩

/-- The serialized demo root, the response `handle_tree_root` gives for
hash `99` on the demo registry. -/
def demoRootJson : Json :=
  Json.obj [("tree_id", Json.str (hexEncode [7])),
            ("generation", Json.num 1),
            ("node_hash", Json.str (hashHex 99)),
            ("status", Json.num 2)]

/-- The trace of the C3 counterexample run. -/
def cexTrace : List ConnEvent :=
  [ConnEvent.readFrame (Frame.request (Request.requestRoot [7] 99)),
   ConnEvent.sendFrame demoRootJson,
   ConnEvent.readFrame Frame.unknownType,
   ConnEvent.sendFrame demoRootJson]

/-- Counterexample to C3 as stated: after an answered `request_root`, a
well-formed text frame with an unrecognized type does NOT terminate the
connection — the server re-sends the previous response and keeps reading
(no crash and no close event occurs in the run). -/
theorem unknown_type_after_response_cex :
    websocket_handler demoStore none
        [Frame.request (Request.requestRoot [7] 99), Frame.unknownType] = cexTrace
    ∧ ConnEvent.crashed ∉ cexTrace
    ∧ ConnEvent.closedConn ∉ cexTrace := by
  refine ⟨rfl, ?_, ?_⟩
  · intro hmem
    simp [cexTrace] at hmem
  · intro hmem
    simp [cexTrace] at hmem

/-- C3 amended: a malformed text frame (invalid JSON, missing field, bad
hex) always terminates the connection abruptly with no structured error
frame, and so does an unrecognized type when no request has yet been
answered; but an unrecognized type arriving after an answered request
re-sends the previous response and the connection continues. -/
theorem malformed_terminates_unknown_resends (ds : DataStore) (st : Option Json)
    (rest rest2 : List Frame) (j : Json) :
    websocket_handler ds st (Frame.malformed :: rest) =
      [ConnEvent.readFrame Frame.malformed, ConnEvent.crashed]
    ∧ websocket_handler ds none (Frame.unknownType :: rest2) =
      [ConnEvent.readFrame Frame.unknownType, ConnEvent.crashed]
    ∧ websocket_handler ds (some j) (Frame.unknownType :: rest2) =
      ConnEvent.readFrame Frame.unknownType :: ConnEvent.sendFrame j ::
        websocket_handler ds (some j) rest2 :=
  ⟨rfl, rfl, rfl⟩

/-- C7: a `close` request makes the server close the connection without
sending any response frame, and no frame after it is processed. -/
theorem close_terminates_connection (ds : DataStore) (st : Option Json) (rest : List Frame) :
    websocket_handler ds st (Frame.close :: rest) =
      [ConnEvent.readFrame Frame.close, ConnEvent.closedConn]
    ∧ ∀ j : Json, ConnEvent.sendFrame j ∉ websocket_handler ds st (Frame.close :: rest) := by
  have heq : websocket_handler ds st (Frame.close :: rest) =
      [ConnEvent.readFrame Frame.close, ConnEvent.closedConn] := rfl
  refine ⟨heq, ?_⟩
  intro j hj
  rw [heq] at hj
  simp at hj

/-- State-threaded dispatch returns the pure response and leaves the store
untouched. -/
theorem respond_st_eq (ds : DataStore) (r : Request) :
    respond_st ds r = (respond ds r, ds) := by
  cases r <;> rfl

/-- C8: handling any sequence of frames — requests of all three kinds,
`close`, and everything else — leaves the stored state (root registry,
node arena, operation log) unchanged, and produces exactly the trace of
the read-only loop: the server only reads, it never mutates. -/
theorem handlers_read_only (fs : List Frame) (ds : DataStore) (st : Option Json) :
    websocket_handler_st ds st fs = (websocket_handler ds st fs, ds) := by
  induction fs generalizing st with
  | nil => rfl
  | cons f rest ih =>
    cases f with
    | nonText =>
      simp only [websocket_handler_st, websocket_handler, ih st]
    | close => rfl
    | malformed => rfl
    | request r =>
      simp only [websocket_handler_st, websocket_handler, respond_st_eq]
      cases hr : respond ds r with
      | ok j => simp only [ih (some j)]
      | error e => rfl
    | unknownType =>
      cases st with
      | none => rfl
      | some j =>
        simp only [websocket_handler_st, websocket_handler, ih (some j)]

/-- Replaying a concatenation of logs replays the first log and continues
from the tree it produced. -/
theorem replay_append (xs ys : List Operation) : ∀ c : Option MTree,
    replay c (xs ++ ys) =
      match replay c xs with
      | Except.ok m => replay m ys
      | Except.error e => Except.error e := by
  induction xs with
  | nil => intro c; rfl
  | cons op rest ih =>
    intro c
    simp only [List.cons_append, replay]
    cases hop : replayOperation c op with
    | error e => rfl
    | ok c2 =>
      dsimp only
      exact ih c2

/-- Replay correctness at every recorded generation: the prefix of the log
up to generation `N` replays without failure to a tree whose root hash is
the one recorded for generation `N`. -/
def LogMatchesRoots (st : TreeHistory) : Prop :=
  ∀ N : Nat, N < st.roots.length →
    ∃ t : Option MTree, replay none (st.ops.take N) = Except.ok t ∧
      st.roots[N]? = some (t.map nodeHash)

/-- Engine invariant: one more recorded root than logged operations, the
full log replays to the current tree, and every generation's recorded root
is reproduced by replaying the log prefix. -/
def HistoryInv (st : TreeHistory) : Prop :=
  st.roots.length = st.ops.length + 1
  ∧ replay none st.ops = Except.ok st.currTree
  ∧ LogMatchesRoots st

/-- The invariant holds for a freshly created tree. -/
theorem historyInv_empty : HistoryInv emptyHistory := by
  refine ⟨rfl, rfl, ?_⟩
  intro N hN
  have hz : N = 0 := by
    simpa [emptyHistory] using Nat.lt_one_iff.mp (by simpa [emptyHistory] using hN)
  subst hz
  exact ⟨none, rfl, rfl⟩

/-- One successful atomic write preserves the invariant. -/
theorem historyInv_step (st : TreeHistory) (c : WriteCmd) (st2 : TreeHistory)
    (hinv : HistoryInv st) (h : applyWrite st c = Except.ok st2) : HistoryInv st2 := by
  obtain ⟨hlen, hreplay, hmatch⟩ := hinv
  cases c with
  | ins key value ref side =>
    unfold applyWrite at h
    dsimp only at h
    cases hins : insertTree st.currTree key value ref side with
    | error e => rw [hins] at h; exact Except.noConfusion h
    | ok t =>
      rw [hins] at h
      dsimp only at h
      injection h with h2
      subst h2
      refine ⟨by simp [hlen], ?_, ?_⟩
      · rw [replay_append, hreplay]
        dsimp only
        simp only [replay, replayOperation]
        rw [hins]
      · intro N hN
        simp only [List.length_append, List.length_cons, List.length_nil] at hN
        by_cases hlt : N < st.roots.length
        · obtain ⟨t0, hr0, hg0⟩ := hmatch N hlt
          refine ⟨t0, ?_, ?_⟩
          · have hle : N ≤ st.ops.length := by omega
            rw [List.take_append_of_le_length hle]
            exact hr0
          · rw [List.getElem?_append_left hlt]
            exact hg0
        · have hNe : N = st.roots.length := by omega
          subst hNe
          refine ⟨some t, ?_, ?_⟩
          · have hle : (st.ops ++
                [Operation.insertion (nodeHash t) key value ref side Status.pending]).length ≤
                st.roots.length := by
              simp [hlen]
            rw [List.take_of_length_le hle]
            rw [replay_append, hreplay]
            dsimp only
            simp only [replay, replayOperation]
            rw [hins]
          · rw [List.getElem?_concat_length]
            rfl
  | del key =>
    unfold applyWrite at h
    dsimp only at h
    cases hdel : deleteTree st.currTree key with
    | error e => rw [hdel] at h; exact Except.noConfusion h
    | ok res =>
      rw [hdel] at h
      dsimp only at h
      injection h with h2
      subst h2
      refine ⟨by simp [hlen], ?_, ?_⟩
      · rw [replay_append, hreplay]
        dsimp only
        simp only [replay, replayOperation]
        rw [hdel]
      · intro N hN
        simp only [List.length_append, List.length_cons, List.length_nil] at hN
        by_cases hlt : N < st.roots.length
        · obtain ⟨t0, hr0, hg0⟩ := hmatch N hlt
          refine ⟨t0, ?_, ?_⟩
          · have hle : N ≤ st.ops.length := by omega
            rw [List.take_append_of_le_length hle]
            exact hr0
          · rw [List.getElem?_append_left hlt]
            exact hg0
        · have hNe : N = st.roots.length := by omega
          subst hNe
          refine ⟨res, ?_, ?_⟩
          · have hle : (st.ops ++
                [Operation.deletion (res.map nodeHash) key Status.pending]).length ≤
                st.roots.length := by
              simp [hlen]
            rw [List.take_of_length_le hle]
            rw [replay_append, hreplay]
            dsimp only
            simp only [replay, replayOperation]
            rw [hdel]
          · rw [List.getElem?_concat_length]

/-- Running writes from an invariant-satisfying history preserves the
invariant. -/
theorem runWritesFrom_inv : ∀ (cmds : List WriteCmd) (st st2 : TreeHistory),
    HistoryInv st → runWritesFrom st cmds = Except.ok st2 → HistoryInv st2 := by
  intro cmds
  induction cmds with
  | nil =>
    intro st st2 hinv h
    unfold runWritesFrom at h
    injection h with h2
    rw [← h2]
    exact hinv
  | cons c rest ih =>
    intro st st2 hinv h
    unfold runWritesFrom at h
    cases hc : applyWrite st c with
    | error e => rw [hc] at h; exact Except.noConfusion h
    | ok stm =>
      rw [hc] at h
      dsimp only at h
      exact ih stm st2 (historyInv_step st c stm hinv hc) h

/-- C9: for every successfully applied command history and every
generation `N` up to the latest, replaying the logged operation prefix
`get_operations(tree, 0, N)` through the engine's insert/delete against an
empty tree succeeds and reproduces exactly the node hash recorded as the
root of generation `N`. -/
theorem log_replay_reproduces_roots (cmds : List WriteCmd) (st : TreeHistory)
    (h : runWrites cmds = Except.ok st) (N : Nat) (hN : N < st.roots.length) :
    ∃ t : Option MTree, replay none (st.ops.take N) = Except.ok t ∧
      st.roots[N]? = some (t.map nodeHash) :=
  (runWritesFrom_inv cmds emptyHistory st historyInv_empty h).2.2 N hN

/-- Demo command history: two insertions and one deletion. -/
def demoCmds : List WriteCmd :=
  [WriteCmd.ins [] [0] none none,
   WriteCmd.ins [1] [2] (some (nodeHash (MTree.terminal [] [0]))) (some Side.right),
   WriteCmd.del [1]]

/-- The history produced by the demo commands. -/
def demoHistory : TreeHistory :=
  match runWrites demoCmds with
  | Except.ok st => st
  | Except.error _ => emptyHistory

/-- Witness for C9: the demo history replays its log prefix of length 2 to
the root recorded for generation 2. -/
theorem log_replay_reproduces_roots_witness :
    runWrites demoCmds = Except.ok demoHistory
    ∧ 2 < demoHistory.roots.length
    ∧ ∃ t : Option MTree, replay none (demoHistory.ops.take 2) = Except.ok t ∧
        demoHistory.roots[2]? = some (t.map nodeHash) :=
  ⟨rfl, by decide, log_replay_reproduces_roots demoCmds demoHistory rfl 2 (by decide)⟩

/-- Steps taken by other threads never touch a thread's own configuration
stack. -/
theorem foldl_configStep_other (t : Nat) (evs : List CtxEvent) :
    ∀ s : ConfigState, (∀ e ∈ evs, e.thread ≠ t) →
      List.foldl configStep s evs t = s t := by
  induction evs with
  | nil => intro s _; rfl
  | cons e rest ih =>
    intro s h
    rw [List.foldl_cons]
    rw [ih (configStep s e) (fun x hx => h x (List.mem_cons_of_mem e hx))]
    have hne : e.thread ≠ t := h e (List.mem_cons_self e rest)
    cases e with
    | enter t2 u =>
      simp only [configStep]
      exact if_neg (fun heq => hne heq.symm)
    | exitScope t2 =>
      simp only [configStep]
      exact if_neg (fun heq => hne heq.symm)

/-- C10: the serialization-mode flag is scoped, not a process-wide
singleton — inside a `clvm_serialization_mode(use)` scope the calling
thread's `get_config()` equals `ClvmSerializationConfig(use)` no matter
what other threads or tasks do concurrently, and exiting the scope
restores the configuration the thread had before entry (so nested scopes
restore the enclosing value). -/
theorem clvm_serialization_mode_scoped (s : ConfigState) (t : Nat) (u : Bool)
    (evs : List CtxEvent) (h : ∀ e ∈ evs, e.thread ≠ t) :
    get_config (List.foldl configStep (configStep s (CtxEvent.enter t u)) evs) t =
      ClvmSerializationConfig.mk u
    ∧ get_config (configStep (List.foldl configStep (configStep s (CtxEvent.enter t u)) evs)
        (CtxEvent.exitScope t)) t = get_config s t := by
  have hfold := foldl_configStep_other t evs (configStep s (CtxEvent.enter t u)) h
  have hexit : ∀ f : ConfigState, configStep f (CtxEvent.exitScope t) t = (f t).tail := by
    intro f
    simp [configStep]
  have henter : ∀ (f : ConfigState) (u2 : Bool),
      configStep f (CtxEvent.enter t u2) t = ClvmSerializationConfig.mk u2 :: f t := by
    intro f u2
    simp [configStep]
  constructor
  · unfold get_config
    rw [hfold, henter]
    rfl
  · unfold get_config
    rw [hexit, hfold, henter]
    rfl

/-- Demo scope events performed by a concurrent thread. -/
def demoCtxEvents : List CtxEvent :=
  [CtxEvent.enter 1 false, CtxEvent.exitScope 1]

/-- The initial configuration state: every thread outside all scopes. -/
def initConfigState : ConfigState := fun _ => []

/-- Witness for C10: thread 0 keeps its own configuration through a
concurrent thread's scope and restores the default on exit. -/
theorem clvm_serialization_mode_scoped_witness :
    get_config (List.foldl configStep (configStep initConfigState (CtxEvent.enter 0 true))
      demoCtxEvents) 0 = ClvmSerializationConfig.mk true
    ∧ get_config (configStep (List.foldl configStep
        (configStep initConfigState (CtxEvent.enter 0 true)) demoCtxEvents)
        (CtxEvent.exitScope 0)) 0 = get_config initConfigState 0 :=
  clvm_serialization_mode_scoped initConfigState 0 true demoCtxEvents (by decide)

end DataLayer
